import Mathlib

/-!
Verification of the shortlink-yt repository: a URL-shortening front end
(`src/lib/types.ts`, `src/components/urls/url-shortener-form.tsx`) together
with the specified short-code allocation / redirect-resolution core.

The visible TypeScript source is embedded shallowly: the zod `urlSchema`
becomes an executable validation function, and the form component's
`onSubmit` handler becomes a pure state-transition function over an explicit
outcome of the `shortenUrl` server action.  The allocator / resolver / store
(absent from the repository) are modelled from the specification.
-/

namespace Shortlink

/-- One character of the custom-code alphabet, from the zod regex
`/^[a-zA-Z0-9_-]+$/` in `src/lib/types.ts`. -/
def isCodeChar (c : Char) : Bool :=
  (('a' ≤ c && c ≤ 'z') || ('A' ≤ c && c ≤ 'Z') || ('0' ≤ c && c ≤ '9')
    || c = '_' || c = '-')

/-- Whether a string matches the anchored regex `^[a-zA-Z0-9_-]+$`:
non-empty and every character in the alphabet. -/
def matchesCodeRegex (s : String) : Bool :=
  !s.data.isEmpty && s.data.all isCodeChar

/-- Raw input object presented to the zod schema; a field may be absent. -/
structure RawInput where
  url : Option String
  customCode : Option String
  deriving Repr, DecidableEq

/-- The parsed form data type `UrlFormData = z.infer<typeof urlSchema>`:
both fields are required strings in the schema. -/
structure UrlFormData where
  url : String
  customCode : String
  deriving Repr, DecidableEq

/-- The issue list produced by `urlSchema` (`src/lib/types.ts` lines 3-9) on
a raw input, as `(field, message)` pairs.  `url` must be a string passing the
URL-syntax check (zod `.url("Please enter a valid URL")`, abstracted as the
predicate `isUrl`); `customCode` must be a string of length at most 255
(`.max(255, ...)`) matching `^[a-zA-Z0-9_-]+$` (`.regex(...)`).  Absent
fields yield zod's "Required" issue. -/
def urlSchemaIssues (isUrl : String → Bool) (inp : RawInput) :
    List (String × String) :=
  (match inp.url with
   | none => [("url", "Required")]
   | some u => if isUrl u then [] else [("url", "Please enter a valid URL")]) ++
  (match inp.customCode with
   | none => [("customCode", "Required")]
   | some c =>
     (if c.length ≤ 255 then []
      else [("customCode", "Custom code must be less than 255 characters")]) ++
     (if matchesCodeRegex c then []
      else [("customCode", "Custom code must be alphanumeric or hyphen")]))

/-- zod validation succeeds iff the schema produces no issues. -/
def urlSchemaValidate (isUrl : String → Bool) (inp : RawInput) : Bool :=
  (urlSchemaIssues isUrl inp).isEmpty

/-- Successful parse through `urlSchema`: both fields present and no
issues; otherwise validation fails and no `UrlFormData` is produced. -/
def urlSchemaParse (isUrl : String → Bool) (inp : RawInput) :
    Option UrlFormData :=
  match inp.url, inp.customCode with
  | some u, some c =>
      if urlSchemaValidate isUrl inp then some ⟨u, c⟩ else none
  | _, _ => none

/-- The `FormData` object built by `onSubmit`
(`url-shortener-form.tsx` lines 50-56): `url` is always appended; the
`customCode` field is appended (trimmed) only when
`data.customCode && data.customCode.trim() !== ""`. -/
structure FormDataModel where
  url : String
  customCode : Option String
  deriving Repr, DecidableEq

/-- JavaScript `String.prototype.trim()`: remove leading and trailing
whitespace. -/
def jsTrim (s : String) : String :=
  String.mk
    (((s.data.dropWhile Char.isWhitespace).reverse.dropWhile
      Char.isWhitespace).reverse)

/-- Embedding of the `FormData` construction in `onSubmit`: the test
`data.customCode && data.customCode.trim() !== ""` guards appending the
trimmed custom code. -/
def buildFormData (d : UrlFormData) : FormDataModel :=
  { url := d.url
  , customCode :=
      if d.customCode ≠ "" ∧ jsTrim d.customCode ≠ "" then
        some (jsTrim d.customCode)
      else none }

/-- The react-hook-form pipeline `form.handleSubmit(onSubmit)`: the resolver
validates the raw input against `urlSchema`; only on success is `onSubmit`
invoked, which builds the `FormData` for the `shortenUrl` request.  On
validation failure no request is produced. -/
def submitRequest (isUrl : String → Bool) (inp : RawInput) :
    Option FormDataModel :=
  (urlSchemaParse isUrl inp).map buildFormData

/-! ### Short-code extraction from the returned short URL

`onSubmit` (`url-shortener-form.tsx` line 62) runs
`response.data.shortUrl.match(/\/r\/([^/]+)$/)` and, when it matches, stores
capture group 1 as the `shortCode` state.  The regex matches iff the URL ends
in `/r/` followed by one or more non-`/` characters; the capture is that
trailing segment. -/

/-- Character is not a forward slash (the `[^/]` character class). -/
def nonSlash (c : Char) : Bool := c ≠ '/'

/-- Regex match `/\/r\/([^/]+)$/` on a reversed character list: take the
maximal trailing run of non-slash characters; it is the capture iff it is
non-empty and is preceded by the literal `/r/`. -/
def extractCodeList (rev : List Char) : Option (List Char) :=
  if rev.takeWhile nonSlash = [] then none
  else if (rev.dropWhile nonSlash).take 3 = ['/', 'r', '/'] then
    some (rev.takeWhile nonSlash).reverse
  else none

/-- The short code extracted from `shortUrl` by the client-side regex
match, or `none` when the regex does not match. -/
def extractShortCode (s : String) : Option String :=
  (extractCodeList s.data.reverse).map (fun cs => String.mk cs)

/-! ### The `onSubmit` handler as a state transition -/

/-- Shape of `ApiResponse<{ shortUrl: string }>` (`src/lib/types.ts`
lines 13-17) as returned by the `shortenUrl` server action. -/
structure ShortenResponse where
  success : Bool
  data : Option String
  error : Option String
  deriving Repr, DecidableEq

/-- Outcome of awaiting `shortenUrl(formData)`: either it returned a
response, or it threw. -/
inductive ShortenOutcome where
  | ok (resp : ShortenResponse)
  | threw
  deriving Repr, DecidableEq

/-- The component state touched by `onSubmit`: the four `useState` cells
`shortUrl`, `shortCode`, `isLoading`, `error`. -/
structure FormState where
  shortUrl : Option String
  shortCode : Option String
  isLoading : Bool
  error : Option String
  deriving Repr, DecidableEq

/-- The fixed message set in the `catch` block of `onSubmit`. -/
def submitErrorMessage : String := "An error occurred. Please try again."

/-- The opening of `onSubmit` (lines 44-47): `setIsLoading(true)`,
`setError(null)`, `setShortUrl(null)`, `setShortCode(null)`. -/
def resetForSubmit (s : FormState) : FormState :=
  { s with isLoading := true, error := none, shortUrl := none,
           shortCode := none }

/-- The response handling in `onSubmit` (lines 59-66): when
`response.success && response.data`, set `shortUrl` and, if the regex
matches, set `shortCode`; any other response leaves the state as is. -/
def applyResponse (s : FormState) (r : ShortenResponse) : FormState :=
  match r.success, r.data with
  | true, some u =>
      let s1 := { s with shortUrl := some u }
      (match extractShortCode u with
       | some c => { s1 with shortCode := some c }
       | none => s1)
  | _, _ => s

/-- The whole `onSubmit` run (lines 43-77) given the outcome of the awaited
`shortenUrl` call: reset, then either handle the response or catch the
exception into the fixed error message, and finally `setIsLoading(false)`. -/
def runOnSubmit (s : FormState) (o : ShortenOutcome) : FormState :=
  let s0 := resetForSubmit s
  let s1 :=
    match o with
    | .ok r => applyResponse s0 r
    | .threw => { s0 with error := some submitErrorMessage }
  { s1 with isLoading := false }

/-! ### The shortening core (spec §§3-4): Store, Code Allocator, Redirect
Resolver.  This code is not present in the repository (the spec targets the
inferred core behind the `shortenUrl` server action and the `/r/` route), so
it is modelled from the specification text. -/

/-- Modelled from the spec: the `UrlMapping` entity of §3 (also the `Url`
type of `src/lib/types.ts` lines 19-26, with timestamps as naturals). -/
structure UrlMapping where
  id : Nat
  originalUrl : String
  shortCode : String
  createdAt : Nat
  updatedAt : Nat
  clicks : Nat
  deriving Repr, DecidableEq

/-- Modelled from the spec: the Store of §4.3, durable persistence of
code→URL mappings, as the list of rows in insertion order. -/
abbrev Store := List UrlMapping

/-- Modelled from the spec: `findByCode(shortCode) -> UrlMapping | None`
(§4.3): the mapping with the given short code, if any. -/
def findByCode : Store → String → Option UrlMapping
  | [], _ => none
  | m :: rest, c => if m.shortCode = c then some m else findByCode rest c

/-- Modelled from the spec: the atomic `incrementClicks` update of §4.2/§4.3:
bump `clicks` and refresh `updatedAt` on the mapping(s) with the code. -/
def incrementClicks (s : Store) (c : String) (now : Nat) : Store :=
  s.map fun m =>
    if m.shortCode = c then { m with clicks := m.clicks + 1, updatedAt := now }
    else m

/-- Modelled from the spec: the error taxonomy of §7 relevant to the
allocator and resolver. -/
inductive CoreError where
  | validationError (msg : String)
  | conflictError
  | exhaustedError
  | notFoundError
  deriving Repr, DecidableEq

/-- Modelled from the spec: a custom code is accepted when it is at most 255
characters and matches `[A-Za-z0-9_-]+` (§4.1, §6). -/
def validCustomCode (c : String) : Bool :=
  matchesCodeRegex c && c.length ≤ 255

/-- Modelled from the spec: the fresh `UrlMapping` row written by the
allocator (§4.1): surrogate id assigned monotonically, both timestamps set
to "now", clicks starting at zero. -/
def mkMapping (s : Store) (url code : String) (now : Nat) : UrlMapping :=
  { id := (s : List UrlMapping).length + 1, originalUrl := url,
    shortCode := code, createdAt := now, updatedAt := now, clicks := 0 }

/-- Modelled from the spec: the bounded-retry generation loop of §4.1/§9:
try candidate codes `gen i`, `gen (i+1)`, ... until one is unused, giving up
after the fuel runs out. -/
def pickFresh (s : Store) (gen : Nat → String) : Nat → Nat → Option String
  | 0, _ => none
  | fuel + 1, i =>
      if findByCode s (gen i) = none then some (gen i)
      else pickFresh s gen fuel (i + 1)

/-- Modelled from the spec: the result of a successful allocation — the
short code chosen and the full short URL (base origin + `/r/` prefix +
code, §4.1). -/
structure AllocOk where
  shortCode : String
  shortUrl : String
  deriving Repr, DecidableEq

/-- Modelled from the spec: the Code Allocator of §4.1.  `isUrl` is the
URL-syntax predicate, `base` the configured base origin, `gen` the random
code generator.  Validates the URL and the custom code (ValidationError),
checks uniqueness (ConflictError), or generates a fresh code with at most 5
attempts (ExhaustedError); on success persists one new row and returns the
code and the full short URL.  The returned store is the post-state (equal to
the pre-state on every failure path). -/
def allocate (isUrl : String → Bool) (base : String) (gen : Nat → String)
    (s : Store) (url : String) (customCode : Option String) (now : Nat) :
    Store × Except CoreError AllocOk :=
  if isUrl url then
    match customCode with
    | some c =>
        if validCustomCode c then
          match findByCode s c with
          | some _ => (s, .error .conflictError)
          | none =>
              ((s : List UrlMapping) ++ [mkMapping s url c now],
               .ok ⟨c, base ++ "/r/" ++ c⟩)
        else (s, .error (.validationError "invalid custom code"))
    | none =>
        match pickFresh s gen 5 0 with
        | none => (s, .error .exhaustedError)
        | some c =>
            ((s : List UrlMapping) ++ [mkMapping s url c now],
             .ok ⟨c, base ++ "/r/" ++ c⟩)
  else (s, .error (.validationError "invalid url"))

/-- Modelled from the spec: the Redirect Resolver of §4.2.  Looks up the
code; if absent fails with NotFoundError (HTTP 404) leaving the store
untouched; if found atomically increments `clicks`, updates `updatedAt`, and
returns the original URL for the redirect. -/
def resolve (s : Store) (c : String) (now : Nat) :
    Store × Except CoreError String :=
  match findByCode s c with
  | none => (s, .error .notFoundError)
  | some m => (incrementClicks s c now, .ok m.originalUrl)

/-! ### Store lemmas -/

theorem findByCode_eq_some_code {s : Store} {c : String} {m : UrlMapping}
    (h : findByCode s c = some m) : m.shortCode = c := by
  induction s with
  | nil => exact absurd h (by simp [findByCode])
  | cons m0 rest ih =>
      by_cases hm : m0.shortCode = c
      · simp only [findByCode, if_pos hm] at h
        cases h; exact hm
      · simp only [findByCode, if_neg hm] at h
        exact ih h

theorem findByCode_append_of_none {s : Store} {c : String}
    (h : findByCode s c = none) (l : List UrlMapping) :
    findByCode (s ++ l) c = findByCode l c := by
  induction s with
  | nil => rfl
  | cons m rest ih =>
      by_cases hm : m.shortCode = c
      · simp only [findByCode, if_pos hm] at h
        exact absurd h (by simp)
      · simp only [findByCode, if_neg hm] at h
        show findByCode (m :: (rest ++ l)) c = _
        simp only [findByCode, if_neg hm]
        exact ih h

theorem findByCode_append_of_some {s : Store} {c : String} {m : UrlMapping}
    (h : findByCode s c = some m) (l : List UrlMapping) :
    findByCode (s ++ l) c = some m := by
  induction s with
  | nil => exact absurd h (by simp [findByCode])
  | cons m0 rest ih =>
      by_cases hm : m0.shortCode = c
      · simp only [findByCode, if_pos hm] at h
        show findByCode (m0 :: (rest ++ l)) c = _
        simp only [findByCode, if_pos hm]
        exact h
      · simp only [findByCode, if_neg hm] at h
        show findByCode (m0 :: (rest ++ l)) c = _
        simp only [findByCode, if_neg hm]
        exact ih h

theorem findByCode_map_preserve (f : UrlMapping → UrlMapping)
    (hf : ∀ m, (f m).shortCode = m.shortCode) (s : Store) (c : String) :
    findByCode (s.map f) c = (findByCode s c).map f := by
  induction s with
  | nil => rfl
  | cons m rest ih =>
      show findByCode (f m :: rest.map f) c = _
      by_cases hm : m.shortCode = c
      · simp only [findByCode, hf m, if_pos hm]
        rfl
      · simp only [findByCode, hf m, if_neg hm]
        exact ih

theorem incClicksFun_preserves_code (c : String) (now : Nat) :
    ∀ m : UrlMapping,
      ((fun m => if m.shortCode = c
                 then { m with clicks := m.clicks + 1, updatedAt := now }
                 else m) m).shortCode = m.shortCode := by
  intro m
  show (if m.shortCode = c
        then { m with clicks := m.clicks + 1, updatedAt := now }
        else m).shortCode = m.shortCode
  by_cases hm : m.shortCode = c
  · rw [if_pos hm]
  · rw [if_neg hm]

theorem findByCode_incrementClicks_self (s : Store) (c : String) (now : Nat) :
    findByCode (incrementClicks s c now) c =
      (findByCode s c).map
        (fun m => { m with clicks := m.clicks + 1, updatedAt := now }) := by
  unfold incrementClicks
  rw [findByCode_map_preserve _ (incClicksFun_preserves_code c now)]
  cases hfind : findByCode s c with
  | none => rfl
  | some m =>
      have hm : m.shortCode = c := findByCode_eq_some_code hfind
      simp only [Option.map_some', if_pos hm]

theorem findByCode_incrementClicks_ne (s : Store) (c c' : String) (now : Nat)
    (h : c' ≠ c) :
    findByCode (incrementClicks s c now) c' = findByCode s c' := by
  unfold incrementClicks
  rw [findByCode_map_preserve _ (incClicksFun_preserves_code c now)]
  cases hfind : findByCode s c' with
  | none => rfl
  | some m =>
      have hm : m.shortCode = c' := findByCode_eq_some_code hfind
      have : ¬ m.shortCode = c := by rw [hm]; exact h
      simp only [Option.map_some', if_neg this]

theorem pickFresh_fresh (s : Store) (gen : Nat → String) :
    ∀ fuel i c, pickFresh s gen fuel i = some c → findByCode s c = none := by
  intro fuel
  induction fuel with
  | zero => intro i c h; exact absurd h (by simp [pickFresh])
  | succ k ih =>
      intro i c h
      by_cases hfree : findByCode s (gen i) = none
      · simp only [pickFresh, if_pos hfree] at h
        injection h with h'
        rw [← h']
        exact hfree
      · simp only [pickFresh, if_neg hfree] at h
        exact ih (i + 1) c h

/-- Successful allocations append exactly one fresh row: the chosen code was
not in the store before, the new store is the old one plus the new mapping,
and the short URL is the base plus `/r/` plus the code. -/
theorem allocate_ok_characterization (isUrl : String → Bool) (base : String)
    (gen : Nat → String) (s : Store) (url : String) (cc : Option String)
    (now : Nat) (s' : Store) (r : AllocOk)
    (h : allocate isUrl base gen s url cc now = (s', Except.ok r)) :
    findByCode s r.shortCode = none ∧
    s' = s ++ [mkMapping s url r.shortCode now] ∧
    r.shortUrl = base ++ "/r/" ++ r.shortCode := by
  unfold allocate at h
  split at h
  · split at h
    · split at h
      · split at h
        · exact absurd h (by simp [Prod.mk.injEq])
        · rename_i c hv hfind
          rw [Prod.mk.injEq] at h
          obtain ⟨hs, hr⟩ := h
          injection hr with hr
          rw [← hr]
          exact ⟨hfind, hs.symm, rfl⟩
      · exact absurd h (by simp [Prod.mk.injEq])
    · split at h
      · exact absurd h (by simp [Prod.mk.injEq])
      · rename_i c hpick
        rw [Prod.mk.injEq] at h
        obtain ⟨hs, hr⟩ := h
        injection hr with hr
        rw [← hr]
        exact ⟨pickFresh_fresh s gen 5 0 c hpick, hs.symm, rfl⟩
  · exact absurd h (by simp [Prod.mk.injEq])

/-- Failed allocations leave the store untouched; successful ones append one
row after the existing rows. -/
theorem allocate_store_shape (isUrl : String → Bool) (base : String)
    (gen : Nat → String) (s : Store) (url : String) (cc : Option String)
    (now : Nat) :
    (allocate isUrl base gen s url cc now).1 = s ∨
    ∃ m, (allocate isUrl base gen s url cc now).1 = s ++ [m] := by
  unfold allocate
  split
  · split
    · split
      · split
        · left; rfl
        · right; exact ⟨_, rfl⟩
      · left; rfl
    · split
      · left; rfl
      · right; exact ⟨_, rfl⟩
  · left; rfl

/-! ### Claim theorems for the shortening core -/

/-- C8: resolution of an unknown code is a read-only failure: for every
store state and every short code not present in the Store, the Redirect
Resolver fails with NotFoundError and the store after the operation is
exactly the store before it. -/
theorem resolve_unknown_readonly (s : Store) (c : String) (now : Nat)
    (h : findByCode s c = none) :
    resolve s c now = (s, Except.error CoreError.notFoundError) := by
  unfold resolve
  rw [h]

theorem resolve_unknown_readonly_witness :
    resolve [⟨1, "https://example.com", "abc123", 0, 0, 0⟩] "zzz" 7 =
      ([⟨1, "https://example.com", "abc123", 0, 0, 0⟩],
       Except.error CoreError.notFoundError) :=
  resolve_unknown_readonly _ _ _ (by decide)

/-- C7: custom-code conflict is atomic: when the store already holds a
mapping `m` with short code `c`, a second allocation supplying `c` as the
custom code fails with ConflictError, the returned store is exactly the old
store, and the pre-existing mapping is still found unchanged under `c`.
(The hypotheses that the request URL is valid and `c` is a well-formed code
reflect the §3 data-model invariant that every stored `shortCode` is 1–255
characters of `[A-Za-z0-9_-]`.) -/
theorem customCode_conflict_atomic (isUrl : String → Bool) (base : String)
    (gen : Nat → String) (s : Store) (url c : String) (now : Nat)
    (m : UrlMapping) (hurl : isUrl url = true)
    (hc : validCustomCode c = true) (hfind : findByCode s c = some m) :
    allocate isUrl base gen s url (some c) now =
      (s, Except.error CoreError.conflictError) ∧
    findByCode (allocate isUrl base gen s url (some c) now).1 c = some m := by
  have halloc : allocate isUrl base gen s url (some c) now =
      (s, Except.error CoreError.conflictError) := by
    simp only [allocate, if_pos hurl, if_pos hc, hfind]
  exact ⟨halloc, by rw [halloc]; exact hfind⟩

theorem customCode_conflict_atomic_witness :
    allocate (fun _ => true) "https://sho.rt" (fun _ => "gen")
        [⟨1, "https://example.com", "abc123", 0, 0, 0⟩]
        "https://other.org" (some "abc123") 5 =
      ([⟨1, "https://example.com", "abc123", 0, 0, 0⟩],
       Except.error CoreError.conflictError) :=
  (customCode_conflict_atomic (fun _ => true) "https://sho.rt" (fun _ => "gen")
    [⟨1, "https://example.com", "abc123", 0, 0, 0⟩] "https://other.org"
    "abc123" 5 ⟨1, "https://example.com", "abc123", 0, 0, 0⟩
    rfl (by decide) (by decide)).1

/-- C6: click accounting: `clicks` is a natural number; a redirect to a
known code returns that mapping's original URL, increments its `clicks` by
exactly one (also refreshing `updatedAt`), and leaves every other mapping
untouched; a failed redirect leaves the store untouched; and an allocation
(successful or not) never changes any existing mapping — so `clicks` only
ever increases, by exactly one per successful redirect. -/
theorem clicks_accounting (s : Store) (c : String) (now : Nat) :
    (∀ m, findByCode s c = some m →
      resolve s c now = (incrementClicks s c now, Except.ok m.originalUrl) ∧
      findByCode (resolve s c now).1 c =
        some { m with clicks := m.clicks + 1, updatedAt := now } ∧
      ∀ c', c' ≠ c → findByCode (resolve s c now).1 c' = findByCode s c') ∧
    (findByCode s c = none → (resolve s c now).1 = s) ∧
    (∀ isUrl base gen url cc m, findByCode s c = some m →
      findByCode (allocate isUrl base gen s url cc now).1 c = some m) := by
  refine ⟨?_, ?_, ?_⟩
  · intro m hm
    have hres : resolve s c now =
        (incrementClicks s c now, Except.ok m.originalUrl) := by
      unfold resolve
      rw [hm]
    refine ⟨hres, ?_, ?_⟩
    · rw [hres]
      show findByCode (incrementClicks s c now) c = _
      rw [findByCode_incrementClicks_self, hm]
      rfl
    · intro c' hc'
      rw [hres]
      show findByCode (incrementClicks s c now) c' = findByCode s c'
      exact findByCode_incrementClicks_ne s c c' now hc'
  · intro hnone
    unfold resolve
    rw [hnone]
  · intro isUrl base gen url cc m hm
    rcases allocate_store_shape isUrl base gen s url cc now with h | ⟨m', h⟩
    · rw [h]; exact hm
    · rw [h]; exact findByCode_append_of_some hm [m']

theorem clicks_accounting_witness :
    resolve [⟨1, "https://example.com", "abc123", 0, 0, 3⟩] "abc123" 9 =
      (incrementClicks [⟨1, "https://example.com", "abc123", 0, 0, 3⟩]
        "abc123" 9, Except.ok "https://example.com") ∧
    findByCode
        (resolve [⟨1, "https://example.com", "abc123", 0, 0, 3⟩]
          "abc123" 9).1 "abc123" =
      some ⟨1, "https://example.com", "abc123", 0, 9, 4⟩ := by
  have h := (clicks_accounting
    [⟨1, "https://example.com", "abc123", 0, 0, 3⟩] "abc123" 9).1
    ⟨1, "https://example.com", "abc123", 0, 0, 3⟩ (by decide)
  exact ⟨h.1, h.2.1⟩

/-- C5: round-trip of allocation and resolution: whenever an allocation
succeeds, resolving the short code it returned against the store it
produced yields exactly the original URL that was submitted. -/
theorem allocate_resolve_round_trip (isUrl : String → Bool) (base : String)
    (gen : Nat → String) (s : Store) (url : String) (cc : Option String)
    (now now' : Nat) (s' : Store) (r : AllocOk)
    (h : allocate isUrl base gen s url cc now = (s', Except.ok r)) :
    (resolve s' r.shortCode now').2 = Except.ok url := by
  obtain ⟨hfresh, hs, -⟩ :=
    allocate_ok_characterization isUrl base gen s url cc now s' r h
  subst hs
  have hfind : findByCode (s ++ [mkMapping s url r.shortCode now])
      r.shortCode = some (mkMapping s url r.shortCode now) := by
    rw [findByCode_append_of_none hfresh]
    simp only [findByCode]
    rw [if_pos (show (mkMapping s url r.shortCode now).shortCode =
      r.shortCode from rfl)]
  unfold resolve
  rw [hfind]
  rfl

theorem allocate_resolve_round_trip_witness :
    (resolve [⟨1, "https://example.com/path?q=1", "abc123", 0, 0, 0⟩]
        "abc123" 1).2 = Except.ok "https://example.com/path?q=1" :=
  allocate_resolve_round_trip (fun _ => true) "https://sho.rt"
    (fun _ => "gen") [] "https://example.com/path?q=1" (some "abc123") 0 1
    [⟨1, "https://example.com/path?q=1", "abc123", 0, 0, 0⟩]
    ⟨"abc123", "https://sho.rt/r/abc123"⟩ rfl

/-! ### Characterizing the client-side short-code extraction -/

theorem takeWhile_append_all {p : Char → Bool} (l₁ l₂ : List Char) (a : Char)
    (h₁ : ∀ x ∈ l₁, p x = true) (h₂ : p a = false) :
    (l₁ ++ a :: l₂).takeWhile p = l₁ := by
  induction l₁ with
  | nil =>
      rw [List.nil_append, List.takeWhile_cons_of_neg (by simp [h₂])]
  | cons x xs ih =>
      rw [List.cons_append,
        List.takeWhile_cons_of_pos (h₁ x (by simp)),
        ih (fun y hy => h₁ y (by simp [hy]))]

theorem dropWhile_append_all {p : Char → Bool} (l₁ l₂ : List Char) (a : Char)
    (h₁ : ∀ x ∈ l₁, p x = true) (h₂ : p a = false) :
    (l₁ ++ a :: l₂).dropWhile p = a :: l₂ := by
  induction l₁ with
  | nil =>
      rw [List.nil_append, List.dropWhile_cons_of_neg (by simp [h₂])]
  | cons x xs ih =>
      rw [List.cons_append,
        List.dropWhile_cons_of_pos (h₁ x (by simp)),
        ih (fun y hy => h₁ y (by simp [hy]))]

theorem take3_eq_iff (l : List Char) (a b c : Char) :
    l.take 3 = [a, b, c] ↔ ∃ t, l = a :: b :: c :: t := by
  constructor
  · intro h
    cases l with
    | nil => exact absurd h (by simp)
    | cons x l1 =>
        cases l1 with
        | nil => exact absurd h (by simp)
        | cons y l2 =>
            cases l2 with
            | nil => exact absurd h (by simp)
            | cons z t =>
                rw [show (x :: y :: z :: t).take 3 = [x, y, z] from rfl] at h
                injection h with h1 h
                injection h with h2 h
                injection h with h3 h
                exact ⟨t, by rw [h1, h2, h3]⟩
  · rintro ⟨t, rfl⟩
    rfl

/-- The regex match on the reversed character list succeeds with capture
`code` exactly when the original list decomposes as some prefix, the literal
`/r/`, and the non-empty slash-free `code` at the very end. -/
theorem extractCodeList_eq_some_iff (rev code : List Char) :
    extractCodeList rev = some code ↔
      code ≠ [] ∧ (∀ x ∈ code, nonSlash x = true) ∧
      ∃ restRev, rev = code.reverse ++ '/' :: 'r' :: '/' :: restRev := by
  constructor
  · intro h
    unfold extractCodeList at h
    by_cases h1 : rev.takeWhile nonSlash = []
    · rw [if_pos h1] at h
      exact absurd h (by simp)
    · rw [if_neg h1] at h
      by_cases h2 : (rev.dropWhile nonSlash).take 3 = ['/', 'r', '/']
      · rw [if_pos h2] at h
        injection h with h
        obtain ⟨t, ht⟩ := (take3_eq_iff _ _ _ _).mp h2
        refine ⟨?_, ?_, t, ?_⟩
        · intro hc
          apply h1
          have := congrArg List.reverse hc
          rw [← h, List.reverse_reverse] at this
          simpa using this
        · intro x hx
          rw [← h] at hx
          exact List.mem_takeWhile_imp (List.mem_reverse.mp hx)
        · rw [← h, List.reverse_reverse, ← ht]
          exact (List.takeWhile_append_dropWhile nonSlash rev).symm
      · rw [if_neg h2] at h
        exact absurd h (by simp)
  · rintro ⟨hne, hall, restRev, hrev⟩
    have hallrev : ∀ x ∈ code.reverse, nonSlash x = true := by
      intro x hx
      exact hall x (List.mem_reverse.mp hx)
    have htake : rev.takeWhile nonSlash = code.reverse := by
      rw [hrev]
      exact takeWhile_append_all _ _ _ hallrev (by decide)
    have hdrop : rev.dropWhile nonSlash = '/' :: 'r' :: '/' :: restRev := by
      rw [hrev]
      exact dropWhile_append_all _ _ _ hallrev (by decide)
    have hcrev : ¬ code.reverse = [] := by
      intro hc
      exact hne (by simpa using congrArg List.reverse hc)
    unfold extractCodeList
    rw [htake, hdrop, if_neg hcrev,
      if_pos (show ('/' :: 'r' :: '/' :: restRev).take 3 = ['/', 'r', '/']
        from rfl),
      List.reverse_reverse]

theorem string_append_rrc (pre c : String) :
    (pre ++ "/r/" ++ c).data = pre.data ++ '/' :: 'r' :: '/' :: c.data := by
  rw [String.data_append, String.data_append,
    show ("/r/" : String).data = ['/', 'r', '/'] from rfl]
  simp [List.append_assoc]

/-- String-level characterization of the client-side regex extraction: it
yields `c` exactly when the URL is some prefix followed by `/r/` followed by
the non-empty slash-free `c`. -/
theorem extractShortCode_eq_some_iff (s c : String) :
    extractShortCode s = some c ↔
      c ≠ "" ∧ (∀ x ∈ c.data, nonSlash x = true) ∧
      ∃ pre : String, s = pre ++ "/r/" ++ c := by
  unfold extractShortCode
  rw [Option.map_eq_some']
  constructor
  · rintro ⟨l, hl, rfl⟩
    obtain ⟨hne, hall, restRev, hrev⟩ := (extractCodeList_eq_some_iff _ _).mp hl
    refine ⟨?_, ?_, ?_⟩
    · intro hc
      exact hne (congrArg String.data hc)
    · intro x hx
      exact hall x hx
    · refine ⟨String.mk restRev.reverse, String.ext ?_⟩
      rw [string_append_rrc]
      have hd := congrArg List.reverse hrev
      rw [List.reverse_reverse] at hd
      rw [hd]
      simp [List.reverse_append]
  · rintro ⟨hne, hall, pre, rfl⟩
    refine ⟨c.data, ?_, rfl⟩
    apply (extractCodeList_eq_some_iff _ _).mpr
    refine ⟨?_, hall, pre.data.reverse, ?_⟩
    · intro hc
      exact hne (String.ext hc)
    · rw [string_append_rrc]
      simp [List.reverse_append]

theorem runOnSubmit_shortCode_success (st : FormState) (u : String)
    (e : Option String) :
    (runOnSubmit st (.ok ⟨true, some u, e⟩)).shortCode = extractShortCode u := by
  cases hx : extractShortCode u with
  | some c => simp [runOnSubmit, applyResponse, resetForSubmit, hx]
  | none => simp [runOnSubmit, applyResponse, resetForSubmit, hx]

/-- C3: the client derives the displayed short code from the returned short
URL by pattern matching: after a successful shorten response carrying
`shortUrl = u`, the `shortCode` state equals `some c` iff `u` ends with
`/r/` followed by the non-empty slash-free segment `c`, and remains `null`
exactly when `u` has no such shape. -/
theorem shortCode_state_from_shortUrl (st : FormState) (u : String)
    (e : Option String) :
    (∀ c, (runOnSubmit st (.ok ⟨true, some u, e⟩)).shortCode = some c ↔
      c ≠ "" ∧ (∀ x ∈ c.data, nonSlash x = true) ∧
      ∃ pre : String, u = pre ++ "/r/" ++ c) ∧
    ((runOnSubmit st (.ok ⟨true, some u, e⟩)).shortCode = none ↔
      ¬ ∃ c pre : String, c ≠ "" ∧ (∀ x ∈ c.data, nonSlash x = true) ∧
        u = pre ++ "/r/" ++ c) := by
  have hsc := runOnSubmit_shortCode_success st u e
  constructor
  · intro c
    rw [hsc]
    exact extractShortCode_eq_some_iff u c
  · rw [hsc]
    constructor
    · rintro hnone ⟨c, pre, h1, h2, h3⟩
      have hsome := (extractShortCode_eq_some_iff u c).mpr ⟨h1, h2, pre, h3⟩
      rw [hnone] at hsome
      exact absurd hsome (by simp)
    · intro hnot
      cases hx : extractShortCode u with
      | none => rfl
      | some c =>
          obtain ⟨h1, h2, pre, h3⟩ := (extractShortCode_eq_some_iff u c).mp hx
          exact absurd ⟨c, pre, h1, h2, h3⟩ hnot

/-! ### Claim theorems for validation and the submit handler -/

/-- C9: the `FormData` sent to `shortenUrl` always carries `url` verbatim,
and carries a `customCode` field iff the entered custom code has
non-whitespace content, in which case the value is the code with leading
and trailing whitespace removed. -/
theorem formData_construction (d : UrlFormData) :
    (buildFormData d).url = d.url ∧
    (buildFormData d).customCode =
      (if jsTrim d.customCode = "" then none
       else some (jsTrim d.customCode)) := by
  refine ⟨rfl, ?_⟩
  show (if d.customCode ≠ "" ∧ jsTrim d.customCode ≠ ""
        then some (jsTrim d.customCode) else none) = _
  by_cases h : jsTrim d.customCode = ""
  · rw [if_neg (fun hc => hc.2 h), if_pos h]
  · have hc : d.customCode ≠ "" := by
      intro hc0
      apply h
      rw [hc0]
      rfl
    rw [if_pos ⟨hc, h⟩, if_neg h]

/-- C10: every `onSubmit` run first clears `error`, `shortUrl` and
`shortCode` (the reset state is exactly the cleared one); when `shortenUrl`
throws, `error` is the fixed retry message while `shortUrl` and `shortCode`
stay `null`; and after every run `isLoading` is `false`. -/
theorem onSubmit_state_hygiene (st : FormState) (o : ShortenOutcome) :
    resetForSubmit st =
      { shortUrl := none, shortCode := none, isLoading := true,
        error := none } ∧
    (runOnSubmit st .threw).error = some submitErrorMessage ∧
    (runOnSubmit st .threw).shortUrl = none ∧
    (runOnSubmit st .threw).shortCode = none ∧
    (runOnSubmit st o).isLoading = false :=
  ⟨rfl, rfl, rfl, rfl, rfl⟩

/-- C4 counterexample: a `shortenUrl` response with `success = false`
carrying an error string is silently ignored by `onSubmit`: the resulting
state shows no error message and no result (here it even wipes a previously
displayed result), so the failure is not surfaced to the user. -/
theorem failure_response_silently_ignored :
    runOnSubmit ⟨some "https://sho.rt/r/x", some "x", false, none⟩
        (.ok ⟨false, none, some "code already in use"⟩) =
      ⟨none, none, false, none⟩ := rfl

/-- C4 (amended): a thrown `shortenUrl` exception is caught and surfaced as
the fixed user-visible message with no stale result, and `onSubmit` is a
total function of the outcome (no unhandled exception); but a response with
`success = false`, or with `success = true` and no data, is silently
ignored — no error message is set and no result is displayed. -/
theorem onSubmit_failure_paths (st : FormState) :
    ((runOnSubmit st .threw).error = some submitErrorMessage ∧
     (runOnSubmit st .threw).shortUrl = none ∧
     (runOnSubmit st .threw).shortCode = none) ∧
    (∀ d e, (runOnSubmit st (.ok ⟨false, d, e⟩)).error = none ∧
      (runOnSubmit st (.ok ⟨false, d, e⟩)).shortUrl = none ∧
      (runOnSubmit st (.ok ⟨false, d, e⟩)).shortCode = none) ∧
    (∀ e, (runOnSubmit st (.ok ⟨true, none, e⟩)).error = none ∧
      (runOnSubmit st (.ok ⟨true, none, e⟩)).shortUrl = none ∧
      (runOnSubmit st (.ok ⟨true, none, e⟩)).shortCode = none) := by
  refine ⟨⟨rfl, rfl, rfl⟩, fun d e => ?_, fun e => ⟨rfl, rfl, rfl⟩⟩
  cases d with
  | none => exact ⟨rfl, rfl, rfl⟩
  | some u => exact ⟨rfl, rfl, rfl⟩

/-- C1: `urlSchema` validation succeeds iff the `url` field is present and
satisfies the URL-syntax predicate and the `customCode` field is present,
matches `^[a-zA-Z0-9_-]+$` and has length at most 255; and every input
whose `customCode` fails the regex or exceeds 255 characters gets a
field-level `customCode` issue and produces no `shortenUrl` request. -/
theorem urlSchema_raises_iff (isUrl : String → Bool) (inp : RawInput) :
    (urlSchemaValidate isUrl inp = true ↔
      (∃ u, inp.url = some u ∧ isUrl u = true) ∧
      (∃ c, inp.customCode = some c ∧ matchesCodeRegex c = true ∧
        c.length ≤ 255)) ∧
    (∀ c, inp.customCode = some c →
      (matchesCodeRegex c = false ∨ 255 < c.length) →
      (∃ msg, ("customCode", msg) ∈ urlSchemaIssues isUrl inp) ∧
      submitRequest isUrl inp = none) := by
  obtain ⟨uf, cf⟩ := inp
  constructor
  · cases uf with
    | none => simp [urlSchemaValidate, urlSchemaIssues]
    | some u =>
        cases cf with
        | none => simp [urlSchemaValidate, urlSchemaIssues]
        | some c =>
            by_cases hu : isUrl u = true
            · by_cases hr : matchesCodeRegex c = true
              · by_cases hl : c.length ≤ 255
                · simp [urlSchemaValidate, urlSchemaIssues, hu, hr, hl]
                · simp [urlSchemaValidate, urlSchemaIssues, hu, hr, hl]
              · rw [Bool.not_eq_true] at hr
                simp [urlSchemaValidate, urlSchemaIssues, hu, hr]
            · rw [Bool.not_eq_true] at hu
              simp [urlSchemaValidate, urlSchemaIssues, hu]
  · intro c hc hbad
    have hc' : cf = some c := hc
    subst hc'
    have hmem : ∃ msg, ("customCode", msg) ∈ urlSchemaIssues isUrl ⟨uf, some c⟩ := by
      rcases hbad with hbad | hbad
      · exact ⟨"Custom code must be alphanumeric or hyphen",
          by simp [urlSchemaIssues, hbad]⟩
      · have hl : ¬ c.length ≤ 255 := Nat.not_le.mpr hbad
        exact ⟨"Custom code must be less than 255 characters",
          by simp [urlSchemaIssues, hl]⟩
    refine ⟨hmem, ?_⟩
    obtain ⟨msg, hm⟩ := hmem
    have hval : urlSchemaValidate isUrl ⟨uf, some c⟩ = false := by
      unfold urlSchemaValidate
      cases hiss : urlSchemaIssues isUrl ⟨uf, some c⟩ with
      | nil => exact absurd (hiss ▸ hm) (by simp)
      | cons a t => rfl
    unfold submitRequest urlSchemaParse
    cases uf with
    | none => rfl
    | some u => simp [hval]

theorem urlSchema_raises_iff_witness :
    submitRequest (fun _ => true)
      ⟨some "https://example.com", some "bad code"⟩ = none :=
  ((urlSchema_raises_iff (fun _ => true)
    ⟨some "https://example.com", some "bad code"⟩).2 "bad code" rfl
    (Or.inl (by decide))).2

/-- C2 (evaluation at the failing input): with the form's default
`customCode = ""` — and likewise with `customCode` absent — `urlSchema`
validation fails (the empty string does not match `^[a-zA-Z0-9_-]+$` and
the field is not declared optional), so the submission with no custom code
is rejected instead of proceeding. -/
theorem empty_or_absent_customCode_rejected :
    urlSchemaValidate (fun _ => true)
        ⟨some "https://example.com", some ""⟩ = false ∧
    urlSchemaIssues (fun _ => true) ⟨some "https://example.com", some ""⟩ =
      [("customCode", "Custom code must be alphanumeric or hyphen")] ∧
    submitRequest (fun _ => true)
        ⟨some "https://example.com", some ""⟩ = none ∧
    urlSchemaValidate (fun _ => true)
        ⟨some "https://example.com", none⟩ = false := by
  refine ⟨rfl, rfl, rfl, rfl⟩

end Shortlink
